import Mathlib

/-!
Verification development for the cfo_copilot repository.

The embedding below models, in Lean, the two engines of the repository:
the intent classifier with its parameter extraction (src/agent/planner.py)
and the metric computation engine with its loader and currency converter
(src/agent/tools.py).  Pandas data frames are embedded as lists of typed
rows; float amounts are embedded as rationals; Python exceptions are
embedded as an explicit error type returned through Except; the float NaN
produced for an undefined gross margin is embedded as Option.none and the
float infinity returned for a non-positive burn is embedded as an explicit
sentinel constructor.
-/

namespace CfoCopilot

/-! ## Generic list helpers shared by the embedding -/

/-- Python string comparison: lexicographic over the character codes,
the comparison pandas and sorted use for the YYYY-MM period keys and the
category names.  Computed over the character lists so that concrete
instances evaluate inside the kernel. -/
def strLtB (a b : String) : Bool := decide (a.data < b.data)

theorem strLtB_iff {a b : String} : strLtB a b = true ↔ a < b := by
  unfold strLtB
  rw [decide_eq_true_iff]
  exact String.lt_iff_toList_lt.symm

/-- Insert one string into a strictly ascending list, dropping it when
already present.  Together with sortedDedup this models Python
sorted(set(l)). -/
def insertSorted (x : String) : List String → List String
  | [] => [x]
  | y :: ys =>
    if strLtB x y then x :: y :: ys
    else if x == y then y :: ys
    else y :: insertSorted x ys

/-- Model of Python sorted(set(l)): the strictly ascending list of the
distinct elements of l. -/
def sortedDedup (l : List String) : List String :=
  l.foldr insertSorted []

theorem mem_insertSorted {x b : String} {l : List String} :
    b ∈ insertSorted x l ↔ b = x ∨ b ∈ l := by
  induction l with
  | nil => simp [insertSorted]
  | cons y ys ih =>
    simp only [insertSorted]
    split_ifs with h1 h2
    · simp only [List.mem_cons]
    · rw [beq_iff_eq] at h2
      subst h2
      simp only [List.mem_cons]
      tauto
    · simp only [List.mem_cons, ih]
      tauto

theorem pairwise_insertSorted (x : String) (l : List String)
    (h : l.Pairwise (· < ·)) : (insertSorted x l).Pairwise (· < ·) := by
  induction l with
  | nil => simp [insertSorted]
  | cons y ys ih =>
    rcases List.pairwise_cons.mp h with ⟨hy, hys⟩
    by_cases hlt : strLtB x y
    · simp only [insertSorted, if_pos hlt]
      have hxy : x < y := strLtB_iff.mp hlt
      refine List.pairwise_cons.mpr ⟨?_, h⟩
      intro b hb
      rcases List.mem_cons.mp hb with hb | hb
      · exact hb ▸ hxy
      · exact lt_trans hxy (hy b hb)
    · by_cases heq : x == y
      · simp only [insertSorted, if_neg hlt, if_pos heq]
        exact h
      · have hne : x ≠ y := by
          intro hcon
          exact heq (by rw [hcon, beq_self_eq_true])
        have hnlt : ¬x < y := fun hcon => hlt (strLtB_iff.mpr hcon)
        have hyx : y < x := lt_of_le_of_ne (not_lt.mp hnlt) (Ne.symm hne)
        simp only [insertSorted, if_neg hlt, if_neg heq]
        refine List.pairwise_cons.mpr ⟨?_, ih hys⟩
        intro b hb
        rcases mem_insertSorted.mp hb with hb | hb
        · exact hb ▸ hyx
        · exact hy b hb

theorem pairwise_sortedDedup (l : List String) :
    (sortedDedup l).Pairwise (· < ·) := by
  induction l with
  | nil => simp [sortedDedup]
  | cons x xs ih => exact pairwise_insertSorted x _ ih

theorem mem_sortedDedup {b : String} {l : List String} :
    b ∈ sortedDedup l ↔ b ∈ l := by
  induction l with
  | nil => simp [sortedDedup]
  | cons x xs ih =>
    simp only [sortedDedup, List.foldr_cons]
    rw [show List.foldr insertSorted [] xs = sortedDedup xs from rfl] at *
    rw [mem_insertSorted, ih, List.mem_cons]

theorem sortedDedup_ne_nil {l : List String}
    (h : l ≠ []) : sortedDedup l ≠ [] := by
  cases l with
  | nil => exact absurd rfl h
  | cons x xs =>
    intro hcon
    have : x ∈ sortedDedup (x :: xs) := mem_sortedDedup.mpr (List.mem_cons_self x xs)
    rw [hcon] at this
    exact List.not_mem_nil x this

/-- Insertion of a (category, amount) pair into a list kept in
non-increasing amount order: the new pair goes before the first existing
pair whose amount does not exceed it. -/
def insertDesc (x : String × ℚ) : List (String × ℚ) → List (String × ℚ)
  | [] => [x]
  | y :: ys => if y.2 ≤ x.2 then x :: y :: ys else y :: insertDesc x ys

/-- Sort by non-increasing amount, the effect of the sort_values call of
opex_breakdown with ascending False.  The numpy sort behind sort_values
does not specify the relative order of tied amounts in general (its
default kind is insertion-sort-stable only below a small cutoff), so this
executable model realizes one admissible tie order — the one the program
produces in the insertion-sort regime, which covers the concrete inputs
of this file — and the opex_breakdown theorem below asserts only
properties independent of the tie order: non-increasing amounts, the
multiset of rows, and the sums. -/
def sortDesc : List (String × ℚ) → List (String × ℚ)
  | [] => []
  | x :: xs => insertDesc x (sortDesc xs)

theorem insertDesc_perm (x : String × ℚ) (l : List (String × ℚ)) :
    List.Perm (insertDesc x l) (x :: l) := by
  induction l with
  | nil => rfl
  | cons y ys ih =>
    by_cases h : y.2 ≤ x.2
    · simp only [insertDesc, if_pos h]
      exact List.Perm.refl _
    · simp only [insertDesc, if_neg h]
      exact List.Perm.trans (List.Perm.cons y ih) (List.Perm.swap x y ys)

theorem sortDesc_perm (l : List (String × ℚ)) : List.Perm (sortDesc l) l := by
  induction l with
  | nil => rfl
  | cons x xs ih =>
    exact List.Perm.trans (insertDesc_perm x (sortDesc xs)) (List.Perm.cons x ih)

theorem insertDesc_sorted_ge (x : String × ℚ) (l : List (String × ℚ))
    (hl : l.Pairwise (fun a b => b.2 ≤ a.2)) :
    (insertDesc x l).Pairwise (fun a b => b.2 ≤ a.2) := by
  induction l with
  | nil => simp [insertDesc]
  | cons y ys ih =>
    rcases List.pairwise_cons.mp hl with ⟨hy, hys⟩
    by_cases h : y.2 ≤ x.2
    · simp only [insertDesc, if_pos h]
      refine List.pairwise_cons.mpr ⟨?_, hl⟩
      intro z hz
      rcases List.mem_cons.mp hz with hz | hz
      · exact hz ▸ h
      · exact le_trans (hy z hz) h
    · simp only [insertDesc, if_neg h]
      refine List.pairwise_cons.mpr ⟨?_, ih hys⟩
      intro z hz
      rcases List.mem_cons.mp ((insertDesc_perm x ys).mem_iff.mp hz) with hz | hz
      · exact hz ▸ le_of_lt (lt_of_not_le h)
      · exact hy z hz

/-- Whatever tie order the underlying sort picks, the output amounts are
non-increasing. -/
theorem sortDesc_sorted_ge (l : List (String × ℚ)) :
    (sortDesc l).Pairwise (fun a b => b.2 ≤ a.2) := by
  induction l with
  | nil => simp [sortDesc]
  | cons x xs ih => exact insertDesc_sorted_ge x (sortDesc xs) ih

theorem sortDesc_sum (l : List (String × ℚ)) :
    ((sortDesc l).map Prod.snd).sum = (l.map Prod.snd).sum :=
  ((sortDesc_perm l).map Prod.snd).sum_eq

/-! ## Intent classifier (src/agent/planner.py)

The classifier works on the character codes of the question.  Python
string operations are modelled on List Nat: lower() as an ASCII case
fold, strip() as dropping whitespace codes at both ends, the in operator
as substring search, and the two re.search calls as explicit leftmost
scans with the alternation and greedy-option order of the patterns. -/

/-- Character codes of a string literal, used to spell the needles and
patterns appearing in planner.py. -/
def codesOf (s : String) : List Nat := s.data.map Char.toNat

/-- Whitespace class: the characters Python str.strip and the regex
class both treat as whitespace (space, tab, newline, vertical tab, form
feed, carriage return). -/
def isWsCode (n : Nat) : Bool :=
  n == 32 || n == 9 || n == 10 || n == 11 || n == 12 || n == 13

/-- ASCII case fold, the effect of Python str.lower on ASCII input. -/
def lowerCode (n : Nat) : Nat := if 65 ≤ n ∧ n ≤ 90 then n + 32 else n

/-- Python l.strip(): whitespace removed from both ends. -/
def stripCodes (l : List Nat) : List Nat :=
  ((l.dropWhile isWsCode).reverse.dropWhile isWsCode).reverse

/-- q = question.lower().strip() from classify_intent. -/
def normalizeQ (s : String) : List Nat :=
  stripCodes ((s.data.map Char.toNat).map lowerCode)

/-- Python needle in hay substring test. -/
def hasSub (needle : List Nat) : List Nat → Bool
  | [] => needle.isEmpty
  | c :: t => needle.isPrefixOf (c :: t) || hasSub needle t

def isDigitCode (n : Nat) : Bool := 48 ≤ n && n ≤ 57

/-- Value of a digit string, the effect of Python int() on it. -/
def digitsVal (l : List Nat) : Nat := l.foldl (fun a c => a * 10 + (c - 48)) 0

/-- One anchored attempt of the pattern last\s+(\d+)\s+month.  The three
character classes involved are disjoint, so the greedy quantifiers need
no backtracking. -/
def matchLastN (s : List Nat) : Option Nat :=
  if (codesOf "last").isPrefixOf s then
    let r1 := s.drop 4
    let sp1 := r1.takeWhile isWsCode
    if sp1.isEmpty then none else
    let r2 := r1.drop sp1.length
    let ds := r2.takeWhile isDigitCode
    if ds.isEmpty then none else
    let r3 := r2.drop ds.length
    let sp2 := r3.takeWhile isWsCode
    if sp2.isEmpty then none else
    if (codesOf "month").isPrefixOf (r3.drop sp2.length) then some (digitsVal ds)
    else none
  else none

/-- re.search of last\s+(\d+)\s+month: leftmost match wins. -/
def searchLastN : List Nat → Option Nat
  | [] => none
  | c :: t =>
    match matchLastN (c :: t) with
    | some n => some n
    | none => searchLastN t

/-- After a month-name token the pattern requires \s+(20\d{2}); returns
the year value.  Codes: 50 is the digit 2, 48 is the digit 0. -/
def matchSpaceYear (r : List Nat) : Option Nat :=
  let sp := r.takeWhile isWsCode
  if sp.isEmpty then none else
  match r.drop sp.length with
  | a :: b :: c :: d :: _ =>
    if a == 50 && b == 48 && isDigitCode c && isDigitCode d then
      some (digitsVal [a, b, c, d])
    else none
  | _ => none

/-- The twelve alternatives of the month-name pattern in planner.py, each
as (three-letter stem, optional continuations in greedy order, month
number).  MONTHS[m.group(1)[:3]] resolves the stem to the number. -/
def monthTable : List (List Nat × List (List Nat) × Nat) :=
  [(codesOf "jan", [codesOf "uary", []], 1),
   (codesOf "feb", [codesOf "ruary", []], 2),
   (codesOf "mar", [codesOf "ch", []], 3),
   (codesOf "apr", [codesOf "il", []], 4),
   (codesOf "may", [[]], 5),
   (codesOf "jun", [codesOf "e", []], 6),
   (codesOf "jul", [codesOf "y", []], 7),
   (codesOf "aug", [codesOf "ust", []], 8),
   (codesOf "sep", [codesOf "tember", codesOf "t", []], 9),
   (codesOf "oct", [codesOf "ober", []], 10),
   (codesOf "nov", [codesOf "ember", []], 11),
   (codesOf "dec", [codesOf "ember", []], 12)]

/-- Backtracking over the greedy optional continuations of one month
alternative: the longest continuation that still lets \s+(20\d{2})
succeed wins. -/
def tryExts (s : List Nat) (pre : List Nat) : List (List Nat) → Option Nat
  | [] => none
  | e :: es =>
    if (pre ++ e).isPrefixOf s then
      match matchSpaceYear (s.drop (pre.length + e.length)) with
      | some y => some y
      | none => tryExts s pre es
    else tryExts s pre es

/-- The month-name alternation, tried in pattern order at one position. -/
def tryMonths (s : List Nat) : List (List Nat × List (List Nat) × Nat) → Option (Nat × Nat)
  | [] => none
  | (pre, exts, m) :: rest =>
    if pre.isPrefixOf s then
      match tryExts s pre exts with
      | some y => some (m, y)
      | none => tryMonths s rest
    else tryMonths s rest

/-- re.search of the month-name pattern: leftmost position wins. -/
def searchMonthYear : List Nat → Option (Nat × Nat)
  | [] => none
  | c :: t =>
    match tryMonths (c :: t) monthTable with
    | some r => some r
    | none => searchMonthYear t

/-- One anchored attempt of the numeric pattern (20\d{2}) then a dash,
slash or space, then (0?[1-9]|1[0-2]).  The first
alternative is tried with the optional leading zero first; note that a
leading digit 1 already satisfies [1-9], so the 1[0-2] alternative of the
pattern is unreachable (kept here for fidelity).  Codes: 45 dash, 47
slash, 32 space. -/
def matchYMAt (s : List Nat) : Option (Nat × Nat) :=
  match s with
  | a :: b :: c :: d :: sep :: rest =>
    if a == 50 && b == 48 && isDigitCode c && isDigitCode d &&
        (sep == 45 || sep == 47 || sep == 32) then
      let y := digitsVal [a, b, c, d]
      match rest with
      | e :: f :: _ =>
        if e == 48 && 49 ≤ f && f ≤ 57 then some (y, f - 48)
        else if 49 ≤ e && e ≤ 57 then some (y, e - 48)
        else if e == 49 && 48 ≤ f && f ≤ 50 then some (y, 10 + (f - 48))
        else none
      | [e] => if 49 ≤ e && e ≤ 57 then some (y, e - 48) else none
      | [] => none
    else none
  | _ => none

/-- re.search of the numeric year-month pattern: leftmost match wins. -/
def searchYM : List Nat → Option (Nat × Nat)
  | [] => none
  | c :: t =>
    match matchYMAt (c :: t) with
    | some r => some r
    | none => searchYM t

/-- _extract_month_year from planner.py: month-name pattern first, then
the numeric pattern, else (None, None). -/
def extract_month_year (q : List Nat) : Option Nat × Option Nat :=
  match searchMonthYear q with
  | some (m, y) => (some m, some y)
  | none =>
    match searchYM q with
    | some (y, m) => (some m, some y)
    | none => (none, none)

/-- A Python parameter value: an int or None. -/
inductive PVal where
  | int (n : Int)
  | null
deriving DecidableEq, Repr

def pvalOfOpt : Option Nat → PVal
  | none => .null
  | some n => .int n

/-- The Plan dataclass of planner.py; params is the dict in insertion
order. -/
structure Plan where
  intent : String
  params : List (String × PVal)
deriving DecidableEq, Repr

def rule1 (q : List Nat) : Bool :=
  hasSub (codesOf "cash runway") q ||
    (hasSub (codesOf "runway") q && hasSub (codesOf "cash") q)

def rule2 (q : List Nat) : Bool :=
  hasSub (codesOf "gross margin") q &&
    (hasSub (codesOf "trend") q || hasSub (codesOf "last") q)

def rule3 (q : List Nat) : Bool :=
  (hasSub (codesOf "opex") q &&
    (hasSub (codesOf "breakdown") q || hasSub (codesOf "break down") q)) ||
    hasSub (codesOf "opex by") q

def rule4 (q : List Nat) : Bool :=
  (hasSub (codesOf "revenue") q && hasSub (codesOf "budget") q) ||
    hasSub (codesOf "vs budget") q

/-- The decision list of classify_intent on the normalized question. -/
def classifyCodes (q : List Nat) : Plan :=
  if rule1 q then ⟨"cash_runway", []⟩
  else if rule2 q then
    ⟨"gm_trend", [("last_n_months", .int ((searchLastN q).getD 3 : Nat))]⟩
  else if rule3 q then
    let my := extract_month_year q
    ⟨"opex_breakdown", [("month", pvalOfOpt my.1), ("year", pvalOfOpt my.2)]⟩
  else if rule4 q then
    let my := extract_month_year q
    ⟨"revenue_vs_budget", [("month", pvalOfOpt my.1), ("year", pvalOfOpt my.2)]⟩
  else ⟨"help", []⟩

/-- classify_intent from planner.py. -/
def classify_intent (question : String) : Plan :=
  classifyCodes (normalizeQ question)

/-! ## Shape lemmas for the extracted parameters -/

theorem tryMonths_month_mem {s : List Nat} {m y : Nat}
    {tbl : List (List Nat × List (List Nat) × Nat)}
    (h : tryMonths s tbl = some (m, y)) : ∃ e ∈ tbl, e.2.2 = m := by
  induction tbl with
  | nil => simp [tryMonths] at h
  | cons e rest ih =>
    obtain ⟨pre, exts, mn⟩ := e
    simp only [tryMonths] at h
    by_cases hp : pre.isPrefixOf s
    · rw [if_pos hp] at h
      cases hx : tryExts s pre exts with
      | some yv =>
        rw [hx] at h
        injection h with h'
        injection h' with h1 h2
        exact ⟨(pre, exts, mn), List.mem_cons_self _ _, h1⟩
      | none =>
        rw [hx] at h
        obtain ⟨e', he', hm⟩ := ih h
        exact ⟨e', List.mem_cons_of_mem _ he', hm⟩
    · rw [if_neg hp] at h
      obtain ⟨e', he', hm⟩ := ih h
      exact ⟨e', List.mem_cons_of_mem _ he', hm⟩

theorem searchMonthYear_month {l : List Nat} {m y : Nat}
    (h : searchMonthYear l = some (m, y)) : 1 ≤ m ∧ m ≤ 12 := by
  induction l with
  | nil => simp [searchMonthYear] at h
  | cons c t ih =>
    simp only [searchMonthYear] at h
    cases htm : tryMonths (c :: t) monthTable with
    | some r =>
      rw [htm] at h
      injection h with h'
      subst h'
      obtain ⟨e, he, hm⟩ := tryMonths_month_mem htm
      have hall : ∀ e ∈ monthTable, 1 ≤ e.2.2 ∧ e.2.2 ≤ 12 := by decide
      exact hm ▸ hall e he
    | none =>
      rw [htm] at h
      exact ih h

theorem matchYMAt_month {l : List Nat} {y m : Nat}
    (h : matchYMAt l = some (y, m)) : 1 ≤ m ∧ m ≤ 12 := by
  unfold matchYMAt at h
  split at h
  case h_2 => exact absurd h (by simp)
  case h_1 a b c d sep rest =>
    split at h
    case isFalse => exact absurd h (by simp)
    case isTrue hcond =>
      split at h
      case h_1 e f rest' =>
        split at h
        case isTrue hef =>
          simp only [Bool.and_eq_true, beq_iff_eq, decide_eq_true_eq] at hef
          injection h with h'
          injection h' with h1 h2
          omega
        case isFalse =>
          split at h
          case isTrue hef =>
            simp only [Bool.and_eq_true, beq_iff_eq, decide_eq_true_eq] at hef
            injection h with h'
            injection h' with h1 h2
            omega
          case isFalse =>
            split at h
            case isTrue hef =>
              simp only [Bool.and_eq_true, beq_iff_eq, decide_eq_true_eq] at hef
              injection h with h'
              injection h' with h1 h2
              omega
            case isFalse => exact absurd h (by simp)
      case h_2 e =>
        split at h
        case isTrue hef =>
          simp only [Bool.and_eq_true, decide_eq_true_eq] at hef
          injection h with h'
          injection h' with h1 h2
          omega
        case isFalse => exact absurd h (by simp)
      case h_3 => exact absurd h (by simp)

theorem searchYM_month {l : List Nat} {y m : Nat}
    (h : searchYM l = some (y, m)) : 1 ≤ m ∧ m ≤ 12 := by
  induction l with
  | nil => simp [searchYM] at h
  | cons c t ih =>
    simp only [searchYM] at h
    cases hm : matchYMAt (c :: t) with
    | some r =>
      rw [hm] at h
      injection h with h'
      subst h'
      exact matchYMAt_month hm
    | none =>
      rw [hm] at h
      exact ih h

theorem extract_month_year_shape (q : List Nat) :
    (∃ m y : Nat, 1 ≤ m ∧ m ≤ 12 ∧ extract_month_year q = (some m, some y)) ∨
      extract_month_year q = (none, none) := by
  unfold extract_month_year
  cases h1 : searchMonthYear q with
  | some r =>
    obtain ⟨m, y⟩ := r
    exact Or.inl ⟨m, y, (searchMonthYear_month h1).1, (searchMonthYear_month h1).2, rfl⟩
  | none =>
    cases h2 : searchYM q with
    | some r =>
      obtain ⟨y, m⟩ := r
      exact Or.inl ⟨m, y, (searchYM_month h2).1, (searchYM_month h2).2, rfl⟩
    | none => exact Or.inr rfl

/-- C6: classify_intent is a total function into Plan (it has no error
outcome in the embedding, mirroring that the Python code performs no
failing operation); whenever none of the four intent rules matches the
normalized question it returns the help intent with an empty params
mapping; and it factors through the lower-and-strip normalization of its
input, which makes it deterministic, case-insensitive and
whitespace-trimmed: any two questions with the same normalization
classify identically. -/
theorem classify_intent_fallback_and_normalized :
    (∀ s : String,
      rule1 (normalizeQ s) = false → rule2 (normalizeQ s) = false →
      rule3 (normalizeQ s) = false → rule4 (normalizeQ s) = false →
      classify_intent s = ⟨"help", []⟩) ∧
    (∀ s t : String, normalizeQ s = normalizeQ t →
      classify_intent s = classify_intent t) := by
  constructor
  · intro s h1 h2 h3 h4
    simp only [classify_intent, classifyCodes, h1, h2, h3, h4,
      Bool.false_eq_true, if_false]
  · intro s t h
    simp only [classify_intent, h]

/-- Witness for C6 at a concrete unmatched input: the fallback clause of
the theorem yields the help plan for a question no rule matches, the
normalization clause equates an upper-case padded variant with its
lower-case form. -/
theorem classify_intent_fallback_witness :
    classify_intent "random unrelated text" = ⟨"help", []⟩ ∧
      classify_intent "  Random UNRELATED text " = classify_intent "random unrelated text" :=
  ⟨classify_intent_fallback_and_normalized.1 "random unrelated text"
      (by decide) (by decide) (by decide) (by decide),
    classify_intent_fallback_and_normalized.2 "  Random UNRELATED text " "random unrelated text"
      (by decide)⟩

/-- C10: the params mapping of every returned Plan has exactly the keys
fixed by its intent: empty for cash_runway and help; exactly
last_n_months holding a non-negative integer for gm_trend; exactly month
and year for opex_breakdown and revenue_vs_budget, holding either two
integers with the month between 1 and 12 or two None values, never one
set without the other. -/
theorem classify_intent_params_shape (s : String) :
    (((classify_intent s).intent = "cash_runway" ∨ (classify_intent s).intent = "help") ∧
      (classify_intent s).params = []) ∨
    ((classify_intent s).intent = "gm_trend" ∧
      ∃ n : Nat, (classify_intent s).params = [("last_n_months", PVal.int (n : Int))]) ∨
    (((classify_intent s).intent = "opex_breakdown" ∨
        (classify_intent s).intent = "revenue_vs_budget") ∧
      ((∃ m y : Nat, 1 ≤ m ∧ m ≤ 12 ∧
          (classify_intent s).params =
            [("month", PVal.int (m : Int)), ("year", PVal.int (y : Int))]) ∨
        (classify_intent s).params = [("month", PVal.null), ("year", PVal.null)])) := by
  unfold classify_intent classifyCodes
  set q := normalizeQ s with hq
  by_cases h1 : rule1 q
  · simp only [h1, if_true]
    exact Or.inl ⟨Or.inl (by simp), by simp⟩
  · simp only [h1, Bool.false_eq_true, if_false]
    by_cases h2 : rule2 q
    · simp only [h2, if_true]
      exact Or.inr (Or.inl ⟨by simp, (searchLastN q).getD 3, rfl⟩)
    · simp only [h2, Bool.false_eq_true, if_false]
      by_cases h3 : rule3 q
      · simp only [h3, if_true]
        refine Or.inr (Or.inr ⟨Or.inl (by simp), ?_⟩)
        rcases extract_month_year_shape q with ⟨m, y, hm1, hm2, he⟩ | he
        · exact Or.inl ⟨m, y, hm1, hm2, by rw [he]; rfl⟩
        · exact Or.inr (by rw [he]; rfl)
      · simp only [h3, Bool.false_eq_true, if_false]
        by_cases h4 : rule4 q
        · simp only [h4, if_true]
          refine Or.inr (Or.inr ⟨Or.inr (by simp), ?_⟩)
          rcases extract_month_year_shape q with ⟨m, y, hm1, hm2, he⟩ | he
          · exact Or.inl ⟨m, y, hm1, hm2, by rw [he]; rfl⟩
          · exact Or.inr (by rw [he]; rfl)
        · simp only [h4, Bool.false_eq_true, if_false]
          exact Or.inl ⟨Or.inr (by simp), by simp⟩

/-! ## Data model and metric engine (src/agent/tools.py)

Data frames are lists of typed rows.  Monetary amounts are rationals
(the float arithmetic of the code performs only products, sums and one
division, modelled exactly).  Python exceptions become the error side of
Except. -/

/-- The failures load_data and the metric functions can produce.  The
AssertionError of the column asserts and the ValueError raised for the fx
columns both name the source and the missing column and realize the
MissingColumnError of the specification; accessing the period column of a
source that lacks it raises a pandas KeyError; an unparsable period value
raises from the dateutil parser; taking [-1] of an empty period list
raises IndexError. -/
inductive Err where
  | missingColumn (source col : String)
  | keyError (source col : String)
  | periodParse (value : String)
  | indexError
deriving DecidableEq, Repr

/-- One actuals or budget row (also the shape fed to to_usd). -/
structure Row where
  period : String
  entity : String
  account : String
  amount : ℚ
  currency : String
deriving DecidableEq, Repr

structure FxRow where
  period : String
  currency : String
  rate_to_usd : ℚ
deriving DecidableEq, Repr

structure CashRow where
  period : String
  currency : String
  cash_balance : ℚ
deriving DecidableEq, Repr

structure DataBundle where
  actuals : List Row
  budget : List Row
  fx : List FxRow
  cash : List CashRow
deriving DecidableEq, Repr

def digitChar : Nat → Char
  | 0 => '0' | 1 => '1' | 2 => '2' | 3 => '3' | 4 => '4'
  | 5 => '5' | 6 => '6' | 7 => '7' | 8 => '8' | _ => '9'

/-- The format string f with year:04d, a dash, month:02d, for the ranges
the period normalizer produces. -/
def periodStr (y m : Nat) : String :=
  ⟨[digitChar (y / 1000 % 10), digitChar (y / 100 % 10),
    digitChar (y / 10 % 10), digitChar (y % 10), '-',
    digitChar (m / 10 % 10), digitChar (m % 10)]⟩

def digitVal (c : Char) : Nat := c.toNat - 48

def digitsNatOfChars (l : List Char) : Nat :=
  l.foldl (fun a c => a * 10 + digitVal c) 0

def parseDay : List Char → Bool
  | [d1] => d1.isDigit && 1 ≤ digitVal d1
  | [d1, d2] =>
    d1.isDigit && d2.isDigit && 1 ≤ digitVal d1 * 10 + digitVal d2 &&
      digitVal d1 * 10 + digitVal d2 ≤ 31
  | _ => false

/-- Month digits (one or two, value 1 to 12), optionally followed by a
separator and a day. -/
def parseMonthDay (l : List Char) : Option Nat :=
  let ds := l.takeWhile Char.isDigit
  let rest := l.drop ds.length
  let mval := digitsNatOfChars ds
  if ds.length = 0 || 2 < ds.length then none
  else if mval < 1 || 12 < mval then none
  else
    match rest with
    | [] => some mval
    | sep :: dcs => if (sep == '-' || sep == '/') && parseDay dcs then some mval else none

/-- Modelled from the spec: the Period Normalizer accepts numeric ISO
forms (YYYY-MM, YYYY/MM, full dates) and fails when no date can be
inferred.  The code delegates to the third-party dateutil parser; this
model covers its behavior on the ISO forms, which are the only shapes the
claims exercise, and rejects everything else (in particular the
month-name forms dateutil would also accept). -/
def parsePeriodChars (l : List Char) : Option (Nat × Nat) :=
  match l with
  | y1 :: y2 :: y3 :: y4 :: rest =>
    if y1.isDigit && y2.isDigit && y3.isDigit && y4.isDigit then
      let y := digitVal y1 * 1000 + digitVal y2 * 100 + digitVal y3 * 10 + digitVal y4
      match rest with
      | sep :: ms =>
        if sep == '-' || sep == '/' then
          match parseMonthDay ms with
          | some m => some (y, m)
          | none => none
        else none
      | [] => none
    else none
  | _ => none

/-- _normalize_period from tools.py: normalize one period value to the
canonical YYYY-MM string, failing on unparsable input. -/
def _normalize_period (s : String) : Except Err String :=
  match parsePeriodChars s.data with
  | some (y, m) => .ok (periodStr y m)
  | none => .error (.periodParse s)

/-- A raw actuals or budget table as read_csv delivers it: which columns
are present, plus the row data.  When a presence flag is false the
corresponding field of the rows carries no information (the column is
absent from the file). -/
structure RawLedger where
  hasPeriod : Bool
  hasEntity : Bool
  hasAccount : Bool
  hasAmount : Bool
  hasCurrency : Bool
  rows : List Row
deriving DecidableEq, Repr

structure RawFx where
  hasPeriod : Bool
  hasCurrency : Bool
  hasRate : Bool
  rows : List FxRow
deriving DecidableEq, Repr

structure RawCash where
  hasPeriod : Bool
  hasCurrency : Bool
  rows : List CashRow
deriving DecidableEq, Repr

structure RawSources where
  actuals : RawLedger
  budget : RawLedger
  fx : RawFx
  cash : RawCash
deriving DecidableEq, Repr

/-- The four column asserts of the loader loop, in their order. -/
def checkLedgerCols (t : RawLedger) (kind : String) : Except Err Unit :=
  if !t.hasPeriod then .error (.missingColumn kind "period")
  else if !t.hasEntity then .error (.missingColumn kind "entity")
  else if !t.hasAccount then .error (.missingColumn kind "account")
  else if !t.hasAmount then .error (.missingColumn kind "amount")
  else .ok ()

def normRow (r : Row) : Except Err Row := do
  let p ← _normalize_period r.period
  pure { r with period := p }

def normFxRow (r : FxRow) : Except Err FxRow := do
  let p ← _normalize_period r.period
  pure { r with period := p }

def normCashRow (r : CashRow) : Except Err CashRow := do
  let p ← _normalize_period r.period
  pure { r with period := p }

/-- The row-by-row fallible map of the period normalization (pandas
apply raises on the first bad value, so the whole load fails fast). -/
def mapE {α β : Type} (f : α → Except Err β) : List α → Except Err (List β)
  | [] => .ok []
  | x :: xs => do
    let y ← f x
    let ys ← mapE f xs
    pure (y :: ys)

/-- One iteration of the actuals/budget loop of load_data: column
asserts, currency default, then period normalization row by row. -/
def loadLedger (t : RawLedger) (kind : String) : Except Err (List Row) := do
  let _ ← checkLedgerCols t kind
  let rows := if t.hasCurrency then t.rows
    else t.rows.map (fun r => { r with currency := "USD" })
  mapE normRow rows

/-- The fx portion of load_data: the rate_to_usd check, the period
normalization (a KeyError if fx has no period column), then the currency
check.  Note there is no duplicate-entry validation of any kind. -/
def loadFx (t : RawFx) : Except Err (List FxRow) := do
  if !t.hasRate then .error (.missingColumn "fx" "rate_to_usd")
  else if !t.hasPeriod then .error (.keyError "fx" "period")
  else do
    let rows ← mapE normFxRow t.rows
    if !t.hasCurrency then .error (.missingColumn "fx" "currency")
    else pure rows

/-- The cash portion of load_data: normalize periods, then default the
currency column. -/
def loadCash (t : RawCash) : Except Err (List CashRow) := do
  if !t.hasPeriod then .error (.keyError "cash" "period")
  else do
    let rows ← mapE normCashRow t.rows
    pure (if t.hasCurrency then rows
      else rows.map (fun r => { r with currency := "USD" }))

/-- load_data from tools.py, over already-read tables. -/
def load_data (srcs : RawSources) : Except Err DataBundle := do
  let a ← loadLedger srcs.actuals "actuals"
  let b ← loadLedger srcs.budget "budget"
  let f ← loadFx srcs.fx
  let c ← loadCash srcs.cash
  pure ⟨a, b, f, c⟩

/-- The merge key of to_usd: the on period and currency condition. -/
def keyMatch (r : Row) (f : FxRow) : Bool :=
  f.period == r.period && f.currency == r.currency

/-- The merged rows one record produces in the left merge: one row per
matching fx entry in fx order, or a single row with the fillna default
rate 1.0 when no entry matches. -/
def rowRates (fx : List FxRow) (r : Row) : List (Row × ℚ) :=
  match fx.filter (keyMatch r) with
  | [] => [(r, 1)]
  | ms => ms.map (fun f => (r, f.rate_to_usd))

/-- The left merge of to_usd over the whole record list. -/
def mergeRates (df : List Row) (fx : List FxRow) : List (Row × ℚ) :=
  df.flatMap (rowRates fx)

/-- to_usd from tools.py: the merged rows with amount_usd = amount times
rate. -/
def to_usd (df : List Row) (fx : List FxRow) : List (Row × ℚ) :=
  (mergeRates df fx).map (fun rc => (rc.1, rc.1.amount * rc.2))

/-- to_usd(df, fx) followed by summing the amount_usd column. -/
def sumUsd (df : List Row) (fx : List FxRow) : ℚ :=
  ((to_usd df fx).map (fun rc => rc.2)).sum

def sumAccount (df : List Row) (acct : String) (fx : List FxRow) : ℚ :=
  sumUsd (df.filter (fun r => r.account == acct)) fx

/-- sorted(set(...)) over the period column. -/
def periodsOf (df : List Row) : List String := sortedDedup (df.map (·.period))

/-- sorted(set(...))[-1], the lexicographically maximal period. -/
def latestPeriod (df : List Row) : Option String := (periodsOf df).getLast?

/-- Python l[-k:] for a positive k: the suffix of length at most k. -/
def lastK (k : Nat) (l : List String) : List String := l.drop (l.length - k)

/-- _period_filter from tools.py.  The truthiness test of the code (if
month and year) treats 0 like None. -/
def _period_filter (df : List Row) (month year : Option Nat) : List Row :=
  match month, year with
  | some m, some y =>
    if m ≠ 0 ∧ y ≠ 0 then df.filter (fun r => r.period == periodStr y m) else df
  | _, _ => df

/-- year, month = map(int, latest.split(dash)) on a normalized period. -/
def splitYM (s : String) : Nat × Nat :=
  let ys := s.data.takeWhile (fun c => !(c == '-'))
  let ms := (s.data.dropWhile (fun c => !(c == '-'))).drop 1
  (digitsNatOfChars ys, digitsNatOfChars ms)

/-- revenue_vs_budget_usd from tools.py. -/
def revenue_vs_budget_usd (b : DataBundle) (month year : Option Nat) :
    Except Err (ℚ × ℚ × String) :=
  let act := _period_filter b.actuals month year
  let bud := _period_filter b.budget month year
  match month, year with
  | some m, some y =>
    .ok (sumAccount act "Revenue" b.fx, sumAccount bud "Revenue" b.fx, periodStr y m)
  | _, _ =>
    match (sortedDedup (act.map (·.period))).getLast? with
    | none => .error .indexError
    | some latest =>
      let act2 := act.filter (fun r => r.period == latest)
      let bud2 := bud.filter (fun r => r.period == latest)
      let ym := splitYM latest
      .ok (sumAccount act2 "Revenue" b.fx, sumAccount bud2 "Revenue" b.fx,
        periodStr ym.1 ym.2)

/-- gross_margin_pct from tools.py.  The Python slice periods[-n:] is the
whole list when n = 0 (since -0 is 0) and the suffix of length at most n
otherwise; gm_pct is None exactly when the converted revenue of the
period is zero (the Python NaN). -/
def gross_margin_pct (b : DataBundle) (last_n_months : Nat) : List (String × Option ℚ) :=
  let periods := sortedDedup (b.actuals.map (·.period))
  let sel := if last_n_months = 0 then periods
    else periods.drop (periods.length - last_n_months)
  sel.map (fun p =>
    let df := b.actuals.filter (fun r => r.period == p)
    let rev := sumAccount df "Revenue" b.fx
    let cogs := sumAccount df "COGS" b.fx
    (p, if rev = 0 then none else some ((rev - cogs) / rev * 100)))

def opexPrefix : List Char := ['O', 'p', 'e', 'x', ':']

/-- account.str.startswith applied to one account tag. -/
def isOpexAccount (r : Row) : Bool := opexPrefix.isPrefixOf r.account.data

/-- Python str.replace of the Opex: needle by the empty string with the
default count: every non-overlapping occurrence is removed, scanning left
to right, not only a leading one. -/
def replaceOpexChars : List Char → List Char
  | 'O' :: 'p' :: 'e' :: 'x' :: ':' :: t => replaceOpexChars t
  | c :: t => c :: replaceOpexChars t
  | [] => []

/-- The category column: account.str.replace of the Opex: needle by the
empty string (all occurrences, not only the prefix). -/
def categoryOf (r : Row) : String := ⟨replaceOpexChars r.account.data⟩

/-- The shared selection step of opex_breakdown and ebitda_proxy: the
period filter, replaced by the latest actuals period when month or year
is None (an IndexError on an empty actuals table). -/
def resolveSelection (b : DataBundle) (month year : Option Nat) : Except Err (List Row) :=
  let df := _period_filter b.actuals month year
  match month, year with
  | some _, some _ => .ok df
  | _, _ =>
    match latestPeriod b.actuals with
    | none => .error .indexError
    | some latest => .ok (b.actuals.filter (fun r => r.period == latest))

/-- groupby category, as_index False, sum of amount_usd: one output pair
per distinct category, keys in ascending order as groupby emits them. -/
def groupSums (l : List (Row × ℚ)) : List (String × ℚ) :=
  (sortedDedup (l.map (fun rc => categoryOf rc.1))).map
    (fun c => (c, ((l.filter (fun rc => categoryOf rc.1 == c)).map (fun rc => rc.2)).sum))

/-- The computation of opex_breakdown after the selection: filter the
Opex: accounts, convert, group by category, sort by descending
amount_usd. -/
def opexPipeline (df : List Row) (fx : List FxRow) : List (String × ℚ) :=
  sortDesc (groupSums (to_usd (df.filter isOpexAccount) fx))

/-- opex_breakdown from tools.py. -/
def opex_breakdown (b : DataBundle) (month year : Option Nat) :
    Except Err (List (String × ℚ)) :=
  (resolveSelection b month year).map (fun df => opexPipeline df b.fx)

/-- ebitda_proxy from tools.py. -/
def ebitda_proxy (b : DataBundle) (month year : Option Nat) : Except Err ℚ :=
  (resolveSelection b month year).map (fun df =>
    sumAccount df "Revenue" b.fx - sumAccount df "COGS" b.fx -
      sumUsd (df.filter isOpexAccount) b.fx)

/-- The rename of cash_balance to amount before the conversion of the
cash rows; entity and account are irrelevant to to_usd. -/
def cashAsRow (c : CashRow) : Row :=
  { period := c.period, entity := "", account := "", amount := c.cash_balance,
    currency := c.currency }

/-- The net burn of one period: converted cogs plus converted opex minus
converted revenue. -/
def burnOf (b : DataBundle) (p : String) : ℚ :=
  let df := b.actuals.filter (fun r => r.period == p)
  (sumAccount df "COGS" b.fx + sumUsd (df.filter isOpexAccount) b.fx) -
    sumAccount df "Revenue" b.fx

/-- The months part of the cash runway result: a finite number of months
or the float infinity sentinel. -/
inductive Runway where
  | months (q : ℚ)
  | inf
deriving DecidableEq, Repr

/-- cash_runway_months from tools.py. -/
def cash_runway_months (b : DataBundle) : Except Err (Runway × ℚ) :=
  let periods := lastK 3 (sortedDedup (b.actuals.map (·.period)))
  let burns := periods.map (burnOf b)
  let avg_burn : ℚ := if burns.isEmpty then 0 else burns.sum / (burns.length : ℚ)
  match (sortedDedup (b.cash.map (·.period))).getLast? with
  | none => .error .indexError
  | some lp =>
    let cash_latest := sumUsd ((b.cash.filter (fun c => c.period == lp)).map cashAsRow) b.fx
    if avg_burn ≤ 0 then .ok (.inf, cash_latest)
    else .ok (.months (cash_latest / avg_burn), cash_latest)

/-! ## C1: left-join semantics of the currency converter -/

theorem find?_eq_head?_filter {α : Type} (p : α → Bool) (l : List α) :
    l.find? p = (l.filter p).head? := by
  induction l with
  | nil => rfl
  | cons x xs ih =>
    rw [List.filter_cons]
    by_cases h : p x
    · rw [if_pos h, List.find?_cons_of_pos _ h, List.head?_cons]
    · rw [if_neg h, List.find?_cons_of_neg _ h, ih]

theorem pairwise_filter_single {fx : List FxRow}
    (h : fx.Pairwise (fun a b => ¬(a.period = b.period ∧ a.currency = b.currency)))
    (r : Row) :
    fx.filter (keyMatch r) = [] ∨ ∃ f, fx.filter (keyMatch r) = [f] := by
  induction fx with
  | nil => exact Or.inl rfl
  | cons g t ih =>
    rcases List.pairwise_cons.mp h with ⟨hg, ht⟩
    by_cases hk : keyMatch r g
    · right
      refine ⟨g, ?_⟩
      rw [List.filter_cons, if_pos hk]
      have hnil : t.filter (keyMatch r) = [] := by
        rw [List.filter_eq_nil_iff]
        intro f hf hkf
        apply hg f hf
        simp only [keyMatch, Bool.and_eq_true, beq_iff_eq] at hk hkf
        exact ⟨hk.1.trans hkf.1.symm, hk.2.trans hkf.2.symm⟩
      rw [hnil]
    · rw [List.filter_cons, if_neg hk]
      exact ih ht

/-- C1: for every record sequence and every fx table with at most one
entry per (period, currency), to_usd returns exactly one output record
per input record, in order (none dropped, none duplicated): the converted
amount is amount times rate_to_usd when the (period, currency) of the
record has an fx entry and amount itself when it has none. -/
theorem to_usd_cons (r : Row) (t : List Row) (fx : List FxRow) :
    to_usd (r :: t) fx =
      (rowRates fx r).map (fun rc => (rc.1, rc.1.amount * rc.2)) ++ to_usd t fx := by
  simp [to_usd, mergeRates, List.flatMap_cons]

theorem to_usd_left_join (df : List Row) (fx : List FxRow)
    (h : fx.Pairwise (fun a b => ¬(a.period = b.period ∧ a.currency = b.currency))) :
    to_usd df fx = df.map (fun r =>
      (r, match fx.find? (keyMatch r) with
          | some f => r.amount * f.rate_to_usd
          | none => r.amount)) := by
  induction df with
  | nil => rfl
  | cons r t ih =>
    rw [to_usd_cons, ih, List.map_cons, find?_eq_head?_filter]
    rcases pairwise_filter_single h r with hf | ⟨f, hf⟩
    · simp only [rowRates, hf, List.head?_nil, List.map_cons, List.map_nil, mul_one]
      rfl
    · simp only [rowRates, hf, List.head?_cons, List.map_cons, List.map_nil]
      rfl

def c1df : List Row :=
  [⟨"2025-06", "E1", "Revenue", 100, "EUR"⟩, ⟨"2025-06", "E1", "Revenue", 50, "USD"⟩]

def c1fx : List FxRow := [⟨"2025-06", "EUR", 11 / 10⟩]

/-- Witness for C1 at a concrete table: the EUR record is converted at
its rate, the USD record (no fx entry) keeps its amount, one output per
input. -/
theorem to_usd_left_join_witness :
    to_usd c1df c1fx =
      [(⟨"2025-06", "E1", "Revenue", 100, "EUR"⟩, 110),
       (⟨"2025-06", "E1", "Revenue", 50, "USD"⟩, 50)] :=
  (to_usd_left_join c1df c1fx (by decide)).trans (by
    norm_num [c1df, c1fx, keyMatch, List.find?]
    decide)

/-! ## C2: cash runway -/

/-- The last 3 distinct actuals periods (fewer when fewer exist). -/
def last3 (b : DataBundle) : List String :=
  lastK 3 (sortedDedup (b.actuals.map (·.period)))

/-- The average of the per-period net burns over the last 3 distinct
actuals periods. -/
def avgBurn3 (b : DataBundle) : ℚ :=
  ((last3 b).map (burnOf b)).sum / (((last3 b).map (burnOf b)).length : ℚ)

/-- The single latest cash period. -/
def latestCashPeriod (b : DataBundle) : Option String :=
  (sortedDedup (b.cash.map (·.period))).getLast?

/-- The converted sum of the cash balances of one period. -/
def latestCashOf (b : DataBundle) (lp : String) : ℚ :=
  sumUsd ((b.cash.filter (fun c => c.period == lp)).map cashAsRow) b.fx

theorem lastK_ne_nil {k : Nat} {l : List String} (hk : 0 < k) (h : l ≠ []) :
    lastK k l ≠ [] := by
  intro hcon
  have hlen : (lastK k l).length = l.length - (l.length - k) := List.length_drop _ _
  rw [hcon] at hlen
  simp only [List.length_nil] at hlen
  have : 0 < l.length := List.length_pos.mpr h
  omega

/-- C2: with at least one actuals period and at least one cash period,
cash_runway_months returns the pair of the months value and the converted
cash sum of the single latest cash period, where the months value is
latestCash divided by the average burn over the last 3 distinct actuals
periods when that average is positive, and the infinity sentinel when the
average is not positive.  The burn of a period is converted cogs plus
converted opex minus converted revenue (definition burnOf). -/
theorem cash_runway_months_spec (b : DataBundle)
    (ha : b.actuals ≠ []) (hc : b.cash ≠ []) :
    ∃ lp : String,
      latestCashPeriod b = some lp ∧
      cash_runway_months b =
        .ok
          (if 0 < avgBurn3 b then Runway.months (latestCashOf b lp / avgBurn3 b)
            else Runway.inf,
          latestCashOf b lp) := by
  have hcash : sortedDedup (b.cash.map (·.period)) ≠ [] := by
    apply sortedDedup_ne_nil
    intro hcon
    exact hc (List.map_eq_nil_iff.mp hcon)
  obtain ⟨lp, hlp⟩ : ∃ lp, (sortedDedup (b.cash.map (·.period))).getLast? = some lp := by
    cases hgl : (sortedDedup (b.cash.map (·.period))).getLast? with
    | none => exact absurd (List.getLast?_eq_none_iff.mp hgl) hcash
    | some lp => exact ⟨lp, rfl⟩
  refine ⟨lp, hlp, ?_⟩
  have hper : last3 b ≠ [] := by
    apply lastK_ne_nil (by norm_num)
    apply sortedDedup_ne_nil
    intro hcon
    exact ha (List.map_eq_nil_iff.mp hcon)
  have hburnsne : ((last3 b).map (burnOf b)).isEmpty = false := by
    cases hl : last3 b with
    | nil => exact absurd hl hper
    | cons p ps => simp [hl]
  unfold cash_runway_months
  rw [hlp]
  simp only [show lastK 3 (sortedDedup (List.map (fun r => r.period) b.actuals)) = last3 b
    from rfl, hburnsne, Bool.false_eq_true, if_false]
  by_cases hpos : 0 < avgBurn3 b
  · rw [if_pos hpos, if_neg (by rw [show ((last3 b).map (burnOf b)).sum /
      (((last3 b).map (burnOf b)).length : ℚ) = avgBurn3 b from rfl]; exact not_le.mpr hpos)]
    rfl
  · rw [if_neg hpos, if_pos (by rw [show ((last3 b).map (burnOf b)).sum /
      (((last3 b).map (burnOf b)).length : ℚ) = avgBurn3 b from rfl]; exact not_lt.mp hpos)]
    rfl

/-- The concrete example of the claim: three actuals periods with burns
100, 200, 300 in the reporting currency and a latest cash balance of
900. -/
def c2b : DataBundle :=
  ⟨[⟨"2025-04", "E", "Opex:X", 100, "USD"⟩,
    ⟨"2025-05", "E", "Opex:X", 200, "USD"⟩,
    ⟨"2025-06", "E", "Opex:X", 300, "USD"⟩], [], [],
   [⟨"2025-06", "USD", 900⟩]⟩

/-- Witness for C2: burns 100, 200, 300 with latest cash 900 give an
average burn of 200 and a runway of 4.5 months. -/
theorem cash_runway_months_witness :
    cash_runway_months c2b = .ok (Runway.months (9 / 2), 900) := by
  obtain ⟨lp, hlp, heq⟩ := cash_runway_months_spec c2b (by decide) (by decide)
  have hlpv : lp = "2025-06" := by
    have h2 : latestCashPeriod c2b = some "2025-06" := by decide
    rw [h2] at hlp
    exact (Option.some_inj.mp hlp).symm
  subst hlpv
  rw [heq]
  have h3 : last3 c2b = ["2025-04", "2025-05", "2025-06"] := by decide
  have hb1 : burnOf c2b "2025-04" = 100 := by
    simp [burnOf, c2b, sumAccount, sumUsd, to_usd, mergeRates, rowRates, keyMatch,
      isOpexAccount, opexPrefix, List.filter]
  have hb2 : burnOf c2b "2025-05" = 200 := by
    simp [burnOf, c2b, sumAccount, sumUsd, to_usd, mergeRates, rowRates, keyMatch,
      isOpexAccount, opexPrefix, List.filter]
  have hb3 : burnOf c2b "2025-06" = 300 := by
    simp [burnOf, c2b, sumAccount, sumUsd, to_usd, mergeRates, rowRates, keyMatch,
      isOpexAccount, opexPrefix, List.filter]
  have havg : avgBurn3 c2b = 200 := by
    rw [avgBurn3, h3, List.map_cons, List.map_cons, List.map_cons, List.map_nil,
      hb1, hb2, hb3]
    norm_num
  have hcash : latestCashOf c2b "2025-06" = 900 := by
    simp [latestCashOf, c2b, sumUsd, to_usd, mergeRates, rowRates, keyMatch, cashAsRow,
      List.filter]
  rw [havg, hcash]
  norm_num

/-! ## C3: gross margin trend -/

/-- A bundle with a single actuals period, used to exhibit the window 0
behavior. -/
def c3b : DataBundle := ⟨[⟨"2025-06", "E", "Revenue", 100, "USD"⟩], [], [], []⟩

/-- Counterexample to C3 as stated: with window N = 0 the claim demands
one entry per period of the last 0 distinct periods, that is an empty
sequence, but the code evaluates the Python slice periods[-0:], which is
the whole period list, and returns one entry for every period. -/
theorem gross_margin_pct_window_zero_cex :
    gross_margin_pct c3b 0 = [("2025-06", some 100)] ∧
      gross_margin_pct c3b 0 ≠ ([] : List (String × Option ℚ)) := by
  have h : gross_margin_pct c3b 0 = [("2025-06", some 100)] := by
    simp [gross_margin_pct, c3b, sortedDedup, insertSorted, sumAccount, sumUsd, to_usd,
      mergeRates, rowRates, keyMatch, List.filter]
  exact ⟨h, by rw [h]; simp⟩

/-- C3 amended: for every window N of at least 1, gross_margin_pct
returns exactly one entry per period for the last N distinct actuals
periods (all of them when fewer than N exist), in ascending lexicographic
order, with gm_pct equal to (converted revenue minus converted cogs) over
converted revenue times 100, and the NaN sentinel (none) exactly for a
period whose converted revenue is zero, without aborting the remaining
periods.  For N = 0 the code instead returns every period, because the
Python slice periods[-0:] is the whole list. -/
theorem gross_margin_pct_spec (b : DataBundle) (n : Nat) (hn : 1 ≤ n) :
    gross_margin_pct b n =
      (lastK n (periodsOf b.actuals)).map (fun p =>
        let df := b.actuals.filter (fun r => r.period == p)
        (p, if sumAccount df "Revenue" b.fx = 0 then none
            else some ((sumAccount df "Revenue" b.fx - sumAccount df "COGS" b.fx) /
              sumAccount df "Revenue" b.fx * 100))) ∧
    ((gross_margin_pct b n).map Prod.fst).Pairwise (· < ·) ∧
    (gross_margin_pct b n).length = min n (periodsOf b.actuals).length := by
  have hmain : gross_margin_pct b n =
      (lastK n (periodsOf b.actuals)).map (fun p =>
        let df := b.actuals.filter (fun r => r.period == p)
        (p, if sumAccount df "Revenue" b.fx = 0 then none
            else some ((sumAccount df "Revenue" b.fx - sumAccount df "COGS" b.fx) /
              sumAccount df "Revenue" b.fx * 100))) := by
    unfold gross_margin_pct
    simp only [if_neg (show ¬n = 0 from by omega)]
    rfl
  refine ⟨hmain, ?_, ?_⟩
  · rw [hmain]
    have hfst : ((lastK n (periodsOf b.actuals)).map (fun p =>
        let df := b.actuals.filter (fun r => r.period == p)
        (p, if sumAccount df "Revenue" b.fx = 0 then none
            else some ((sumAccount df "Revenue" b.fx - sumAccount df "COGS" b.fx) /
              sumAccount df "Revenue" b.fx * 100)))).map Prod.fst =
        lastK n (periodsOf b.actuals) := by
      rw [List.map_map]
      apply List.map_id''
      intro x
      rfl
    rw [hfst]
    exact (pairwise_sortedDedup _).drop
  · rw [hmain, List.length_map]
    unfold lastK
    rw [List.length_drop]
    omega

/-- A bundle whose earlier period has zero revenue: its entry carries the
NaN sentinel and the later period is still produced. -/
def c3nan : DataBundle :=
  ⟨[⟨"2025-05", "E", "Opex:X", 10, "USD"⟩,
    ⟨"2025-06", "E", "Revenue", 200, "USD"⟩,
    ⟨"2025-06", "E", "COGS", 50, "USD"⟩], [], [], []⟩

/-- Witness for the amended C3: a zero-revenue period yields the NaN
sentinel, the remaining period is still produced, the order is
ascending. -/
theorem gross_margin_pct_witness :
    gross_margin_pct c3nan 3 = [("2025-05", none), ("2025-06", some 75)] := by
  rw [(gross_margin_pct_spec c3nan 3 (by norm_num)).1]
  have hsel : lastK 3 (periodsOf c3nan.actuals) = ["2025-05", "2025-06"] := by decide
  rw [hsel]
  simp [sumAccount, sumUsd, to_usd, mergeRates, rowRates, keyMatch, c3nan, List.filter]
  norm_num

/-! ## C4: opex breakdown -/

/-- Evaluation lemma: comparing two strings given by their character
lists compares the lists. -/
theorem mk_beq_mk (l l' : List Char) : (String.mk l == String.mk l') = (l == l') := by
  by_cases h : l = l'
  · subst h
    simp
  · have h1 : (String.mk l == String.mk l') = false := by
      rw [beq_eq_false_iff_ne]
      intro hc
      exact h (by injection hc)
    have h2 : (l == l') = false := beq_eq_false_iff_ne.mpr h
    rw [h1, h2]

theorem filter_sum_split (l : List (Row × ℚ)) (p : Row × ℚ → Bool) :
    ((l.filter p).map Prod.snd).sum + ((l.filter (fun x => !p x)).map Prod.snd).sum
      = (l.map Prod.snd).sum := by
  induction l with
  | nil => simp
  | cons x xs ih =>
    by_cases h : p x
    · simp only [List.filter_cons, h, if_pos, Bool.not_true, Bool.false_eq_true, if_false,
        List.map_cons, List.sum_cons]
      rw [add_assoc, ih]
    · simp only [List.filter_cons, h, Bool.false_eq_true, if_false, Bool.not_false, if_pos,
        List.map_cons, List.sum_cons]
      rw [add_left_comm, ih]

theorem filter_ne_comm (l : List (Row × ℚ)) (c c' : String) (h : c' ≠ c) :
    (l.filter (fun rc => !(categoryOf rc.1 == c))).filter (fun rc => categoryOf rc.1 == c')
      = l.filter (fun rc => categoryOf rc.1 == c') := by
  induction l with
  | nil => rfl
  | cons x xs ih =>
    by_cases hxc : (!(categoryOf x.1 == c)) = true
    · rw [List.filter_cons, if_pos hxc, List.filter_cons, List.filter_cons]
      by_cases hx : (categoryOf x.1 == c') = true
      · rw [if_pos hx, if_pos hx, ih]
      · rw [if_neg hx, if_neg hx, ih]
    · have hcc : categoryOf x.1 = c := by
        simpa [beq_iff_eq] using hxc
      have hx : ¬(categoryOf x.1 == c') = true := by
        rw [beq_iff_eq, hcc]
        exact fun hcon => h hcon.symm
      rw [List.filter_cons, if_neg hxc, List.filter_cons, if_neg hx, ih]

theorem sum_over_cats (cats : List String) (l : List (Row × ℚ))
    (hnd : cats.Nodup) (hcov : ∀ rc ∈ l, categoryOf rc.1 ∈ cats) :
    (cats.map (fun c =>
      ((l.filter (fun rc => categoryOf rc.1 == c)).map Prod.snd).sum)).sum
      = (l.map Prod.snd).sum := by
  induction cats generalizing l with
  | nil =>
    cases l with
    | nil => rfl
    | cons x xs => exact absurd (hcov x (List.mem_cons_self x xs)) (List.not_mem_nil _)
  | cons c cs ih =>
    rcases List.pairwise_cons.mp hnd with ⟨hc, hcs⟩
    have hstep : ∀ c' ∈ cs,
        ((l.filter (fun rc => categoryOf rc.1 == c')).map Prod.snd).sum =
        (((l.filter (fun rc => !(categoryOf rc.1 == c))).filter
          (fun rc => categoryOf rc.1 == c')).map Prod.snd).sum := by
      intro c' hc'
      rw [filter_ne_comm l c c' (fun hcon => hc c' hc' hcon.symm)]
    rw [List.map_cons, List.sum_cons]
    have hmap : (cs.map (fun c' =>
        ((l.filter (fun rc => categoryOf rc.1 == c')).map Prod.snd).sum)) =
        (cs.map (fun c' =>
        (((l.filter (fun rc => !(categoryOf rc.1 == c))).filter
          (fun rc => categoryOf rc.1 == c')).map Prod.snd).sum)) :=
      List.map_congr_left hstep
    rw [hmap, ih (l.filter (fun rc => !(categoryOf rc.1 == c))) hcs ?_]
    · exact filter_sum_split l (fun rc => categoryOf rc.1 == c)
    · intro rc hrc
      have hmem := List.mem_filter.mp hrc
      have hcl := hcov rc hmem.1
      rcases List.mem_cons.mp hcl with hh | hh
      · exfalso
        have : (categoryOf rc.1 == c) = true := beq_iff_eq.mpr hh
        rw [this] at hmem
        exact absurd hmem.2 (by simp)
      · exact hh

theorem groupSums_sum (l : List (Row × ℚ)) :
    ((groupSums l).map Prod.snd).sum = (l.map Prod.snd).sum := by
  unfold groupSums
  rw [List.map_map]
  have hrw : (Prod.snd ∘ fun c => (c,
      ((l.filter (fun rc => categoryOf rc.1 == c)).map Prod.snd).sum)) =
      (fun c => ((l.filter (fun rc => categoryOf rc.1 == c)).map Prod.snd).sum) := rfl
  rw [hrw]
  apply sum_over_cats
  · exact (pairwise_sortedDedup _).imp ne_of_lt
  · intro rc hrc
    exact mem_sortedDedup.mpr (List.mem_map_of_mem _ hrc)

theorem opex_breakdown_eq_pipeline {b : DataBundle} {month year : Option Nat}
    {df : List Row} (hsel : resolveSelection b month year = .ok df) :
    opex_breakdown b month year = .ok (opexPipeline df b.fx) := by
  unfold opex_breakdown
  rw [hsel]
  rfl

/-- C4 amended: for every bundle and selection, the opex breakdown has
one row per distinct category, where the category is the account tag with
every occurrence of the Opex: needle removed (Python str.replace removes
all occurrences, not only the prefix); amounts are converted then summed
per category; the rows are in non-increasing amountUsd order; and the
amounts sum to the total of the converted Opex rows of the selection.
Tied amounts are not emitted in original row-encounter order (the sorted
groupby reorders the tied categories before the sort, as the
counterexample shows); beyond that the program specifies no tie order, so
none is asserted here. -/
theorem opex_breakdown_spec (b : DataBundle) (month year : Option Nat)
    (df : List Row) (out : List (String × ℚ))
    (hsel : resolveSelection b month year = .ok df)
    (hout : opex_breakdown b month year = .ok out) :
    out.Pairwise (fun a b => b.2 ≤ a.2) ∧
    (out.map Prod.snd).sum = sumUsd (df.filter isOpexAccount) b.fx ∧
    (out.map Prod.fst).Perm
      (sortedDedup ((to_usd (df.filter isOpexAccount) b.fx).map
        (fun rc => categoryOf rc.1))) ∧
    (∀ rc ∈ out, rc.2 =
      (((to_usd (df.filter isOpexAccount) b.fx).filter
        (fun x => categoryOf x.1 == rc.1)).map Prod.snd).sum) := by
  have hpe := opex_breakdown_eq_pipeline hsel
  rw [hpe] at hout
  have hout' : out = opexPipeline df b.fx := (Except.ok.injEq _ _ ▸ hout.symm : _)
  subst hout'
  set l := to_usd (df.filter isOpexAccount) b.fx with hl
  refine ⟨sortDesc_sorted_ge _, ?_, ?_, ?_⟩
  · unfold opexPipeline
    rw [sortDesc_sum, groupSums_sum]
    rfl
  · unfold opexPipeline
    refine ((sortDesc_perm (groupSums l)).map Prod.fst).trans ?_
    unfold groupSums
    rw [List.map_map]
    have : (Prod.fst ∘ fun c => (c,
        ((l.filter (fun rc => categoryOf rc.1 == c)).map Prod.snd).sum)) = id := rfl
    rw [this, List.map_id]
  · intro rc hrc
    have hmem : rc ∈ groupSums l :=
      (sortDesc_perm (groupSums l)).mem_iff.mp hrc
    unfold groupSums at hmem
    rcases List.mem_map.mp hmem with ⟨c, _hc, hceq⟩
    rw [← hceq]

/-- Rows exhibiting both deviations of the code from C4 as stated: two
categories tie at amount 10 with encounter order Zeta before Alpha, and
one account contains the Opex: needle twice. -/
def c4cex : DataBundle :=
  ⟨[⟨"2025-06", "E", "Opex:Zeta", 10, "USD"⟩,
    ⟨"2025-06", "E", "Opex:Alpha", 10, "USD"⟩,
    ⟨"2025-06", "E", "Opex:AOpex:B", 5, "USD"⟩], [], [], []⟩

/-- Counterexample to C4 as stated: the claim dictates categories with
only the leading Opex: prefix stripped (so AOpex:B) and amount ties in
original row-encounter order (so Zeta before Alpha); the code instead
removes every occurrence of the needle (category AB), and at this input
(three groups, inside the insertion-sort regime of the numpy sort where
the model coincides with the program) the tied pair comes out Alpha
before Zeta, the order the sorted groupby fed it in, not the
row-encounter order. -/
theorem opex_breakdown_cex :
    opex_breakdown c4cex (some 6) (some 2025) =
      .ok [("Alpha", 10), ("Zeta", 10), ("AB", 5)] ∧
    opex_breakdown c4cex (some 6) (some 2025) ≠
      .ok [("Zeta", 10), ("Alpha", 10), ("AOpex:B", 5)] := by
  have hsel : resolveSelection c4cex (some 6) (some 2025) = .ok c4cex.actuals := rfl
  have h := opex_breakdown_eq_pipeline hsel
  have hpipe : opexPipeline c4cex.actuals c4cex.fx =
      [("Alpha", 10), ("Zeta", 10), ("AB", 5)] := by
    norm_num [opexPipeline, groupSums, sortDesc, insertDesc, sortedDedup, insertSorted,
      strLtB, to_usd, mergeRates, rowRates, keyMatch, isOpexAccount, categoryOf,
      replaceOpexChars, opexPrefix, List.filter, List.isPrefixOf, mk_beq_mk, c4cex]
  rw [h, hpipe]
  refine ⟨rfl, ?_⟩
  intro hcon
  simp only [Except.ok.injEq, List.cons.injEq, Prod.mk.injEq] at hcon
  exact absurd hcon.1.1 (by simp)

/-- Rows for the witness of the amended C4: category B appears first, the
two A rows sum to tie with B at 5. -/
def c4w : DataBundle :=
  ⟨[⟨"2025-06", "E", "Opex:B", 5, "USD"⟩,
    ⟨"2025-06", "E", "Opex:A", 3, "USD"⟩,
    ⟨"2025-06", "E", "Opex:A", 2, "USD"⟩], [], [], []⟩

/-- Witness for the amended C4: the two A rows are summed per category
and the output total equals the converted opex total. -/
theorem opex_breakdown_spec_witness :
    opex_breakdown c4w (some 6) (some 2025) = .ok [("A", 5), ("B", 5)] ∧
    (([("A", 5), ("B", 5)] : List (String × ℚ)).map Prod.snd).sum =
      sumUsd (c4w.actuals.filter isOpexAccount) c4w.fx := by
  have hsel : resolveSelection c4w (some 6) (some 2025) = .ok c4w.actuals := rfl
  have hout : opex_breakdown c4w (some 6) (some 2025) = .ok [("A", 5), ("B", 5)] := by
    rw [opex_breakdown_eq_pipeline hsel]
    norm_num [opexPipeline, groupSums, sortDesc, insertDesc, sortedDedup, insertSorted,
      strLtB, to_usd, mergeRates, rowRates, keyMatch, isOpexAccount, categoryOf,
      replaceOpexChars, opexPrefix, List.filter, List.isPrefixOf, mk_beq_mk, c4w,
      show ('A' == 'B') = false from by decide, show ('B' == 'A') = false from by decide]
  have hmain := opex_breakdown_spec c4w (some 6) (some 2025) c4w.actuals
    [("A", 5), ("B", 5)] hsel hout
  exact ⟨hout, hmain.2.1⟩

/-! ## C5: latest-period round trip of revenue vs budget -/

/-- C5: calling revenue_vs_budget_usd with month and year None returns
exactly the result of calling it explicitly with the month and year of
the lexicographically maximal actuals period.  The hypotheses state that
the maximal period is the canonical YYYY-MM string of that month and
year, as the loader guarantees for every period in the bundle. -/
theorem revenue_vs_budget_usd_latest_round_trip (b : DataBundle) (y m : Nat)
    (hmax : latestPeriod b.actuals = some (periodStr y m))
    (hparse : splitYM (periodStr y m) = (y, m))
    (hm : m ≠ 0) (hy : y ≠ 0) :
    revenue_vs_budget_usd b none none = revenue_vs_budget_usd b (some m) (some y) := by
  unfold latestPeriod periodsOf at hmax
  unfold revenue_vs_budget_usd
  simp only [_period_filter]
  rw [if_pos (show m ≠ 0 ∧ y ≠ 0 from ⟨hm, hy⟩)]
  rw [if_pos (show m ≠ 0 ∧ y ≠ 0 from ⟨hm, hy⟩)]
  rw [hmax]
  simp only [hparse]

/-- Two actuals periods with the later one 2025-06. -/
def c5b : DataBundle :=
  ⟨[⟨"2025-05", "E", "Revenue", 70, "USD"⟩, ⟨"2025-06", "E", "Revenue", 100, "USD"⟩],
   [⟨"2025-06", "E", "Revenue", 90, "USD"⟩], [], []⟩

/-- Witness for C5 at a concrete bundle whose maximal actuals period is
2025-06. -/
theorem revenue_vs_budget_usd_latest_round_trip_witness :
    revenue_vs_budget_usd c5b none none = revenue_vs_budget_usd c5b (some 6) (some 2025) :=
  revenue_vs_budget_usd_latest_round_trip c5b 2025 6 (by decide) (by decide)
    (by decide) (by decide)

/-! ## C7: behavior on empty sources and empty selections -/

/-- Zero actuals rows but one cash row. -/
def c7b : DataBundle := ⟨[], [], [], [⟨"2025-06", "USD", 900⟩]⟩

/-- One actuals row, zero cash rows. -/
def c7b2 : DataBundle := ⟨[⟨"2025-05", "E", "Revenue", 70, "USD"⟩], [], [], []⟩

/-- Counterexample to C7 as stated: two metric functions invoked against
a bundle with zero rows in a relevant source succeed instead of failing:
cash_runway_months with zero actuals rows returns infinite months (the
empty burn list makes the average burn 0.0), and revenue_vs_budget_usd
with an explicit month and year returns zero sums on a bundle with zero
actuals rows. -/
theorem metric_empty_cex :
    cash_runway_months c7b = .ok (Runway.inf, 900) ∧
    revenue_vs_budget_usd c7b (some 6) (some 2025) = .ok (0, 0, "2025-06") := by
  constructor
  · norm_num [cash_runway_months, c7b, lastK, sortedDedup, insertSorted, burnOf, sumUsd,
      sumAccount, to_usd, mergeRates, rowRates, keyMatch, cashAsRow, List.filter]
  · norm_num [revenue_vs_budget_usd, c7b, _period_filter, sumAccount, sumUsd, to_usd,
      mergeRates, rowRates, keyMatch, List.filter,
      show periodStr 2025 6 = "2025-06" from by decide]

/-- C7 amended: a metric function fails, with the index error that
realizes EmptyDatasetError, exactly when it takes the latest element of
an empty period list: revenue_vs_budget_usd and opex_breakdown when month
or year is None and actuals has zero rows, and cash_runway_months when
cash has zero rows.  An empty selection for an explicitly resolved period
yields zero-valued sums without a crash; cash_runway_months with zero
actuals rows but nonempty cash returns infinite months instead of
failing; gross_margin_pct on zero actuals rows returns the empty
sequence. -/
theorem metric_empty_behavior (b : DataBundle) (month year : Option Nat) (m y n : Nat) :
    (b.actuals = [] → revenue_vs_budget_usd b none none = .error .indexError) ∧
    (b.cash = [] → cash_runway_months b = .error .indexError) ∧
    (b.actuals = [] → (month = none ∨ year = none) →
      opex_breakdown b month year = .error .indexError) ∧
    (m ≠ 0 → y ≠ 0 → b.actuals.filter (fun r => r.period == periodStr y m) = [] →
      b.budget.filter (fun r => r.period == periodStr y m) = [] →
      revenue_vs_budget_usd b (some m) (some y) = .ok (0, 0, periodStr y m)) ∧
    (b.actuals = [] → b.cash ≠ [] → ∃ c, cash_runway_months b = .ok (Runway.inf, c)) ∧
    (b.actuals = [] → gross_margin_pct b n = []) := by
  refine ⟨?_, ?_, ?_, ?_, ?_, ?_⟩
  · intro ha
    unfold revenue_vs_budget_usd
    simp only [_period_filter, ha]
    rfl
  · intro hc
    unfold cash_runway_months
    simp only [hc]
    rfl
  · intro ha hmy
    unfold opex_breakdown resolveSelection
    simp only [_period_filter, ha]
    rcases hmy with hmy | hmy
    · subst hmy
      rfl
    · subst hmy
      cases month with
      | none => rfl
      | some mv => rfl
  · intro hm hy hact hbud
    unfold revenue_vs_budget_usd
    simp only [_period_filter]
    rw [if_pos (show m ≠ 0 ∧ y ≠ 0 from ⟨hm, hy⟩)]
    rw [if_pos (show m ≠ 0 ∧ y ≠ 0 from ⟨hm, hy⟩)]
    rw [hact, hbud]
    rfl
  · intro ha hc
    have hcash : sortedDedup (b.cash.map (·.period)) ≠ [] := by
      apply sortedDedup_ne_nil
      intro hcon
      exact hc (List.map_eq_nil_iff.mp hcon)
    obtain ⟨lp, hlp⟩ : ∃ lp, (sortedDedup (b.cash.map (·.period))).getLast? = some lp := by
      cases hgl : (sortedDedup (b.cash.map (·.period))).getLast? with
      | none => exact absurd (List.getLast?_eq_none_iff.mp hgl) hcash
      | some lp => exact ⟨lp, rfl⟩
    refine ⟨sumUsd ((b.cash.filter (fun c => c.period == lp)).map cashAsRow) b.fx, ?_⟩
    unfold cash_runway_months
    simp only [ha, List.map_nil, hlp]
    rw [show sortedDedup [] = [] from rfl]
    rw [show lastK 3 [] = [] from rfl]
    simp only [List.map_nil, List.isEmpty_nil, if_pos]
    rw [if_pos le_rfl]
  · intro ha
    unfold gross_margin_pct
    simp only [ha, List.map_nil]
    rw [show sortedDedup [] = [] from rfl]
    cases hn : n with
    | zero => rfl
    | succ k =>
      rw [if_neg (Nat.succ_ne_zero k), List.drop_nil]
      rfl

/-- Witness for the amended C7: the latest-period resolution fails on
empty actuals, the latest cash lookup fails on empty cash, and an
explicitly resolved period with no matching rows yields zero sums. -/
theorem metric_empty_behavior_witness :
    revenue_vs_budget_usd c7b none none = .error .indexError ∧
    cash_runway_months c7b2 = .error .indexError ∧
    revenue_vs_budget_usd c7b2 (some 6) (some 2025) = .ok (0, 0, periodStr 2025 6) :=
  ⟨(metric_empty_behavior c7b none none 6 2025 3).1 rfl,
    (metric_empty_behavior c7b2 none none 6 2025 3).2.1 rfl,
    (metric_empty_behavior c7b2 none none 6 2025 3).2.2.2.1 (by decide) (by decide)
      (by decide) (by decide)⟩

/-! ## C8: duplicate fx entries at load time -/

/-- Sources whose fx table holds two entries for (2025-06, EUR). -/
def srcs8 : RawSources :=
  ⟨⟨true, true, true, true, true, [⟨"2025-06", "E", "Revenue", 1, "USD"⟩]⟩,
   ⟨true, true, true, true, true, []⟩,
   ⟨true, true, true, [⟨"2025-06", "EUR", 2⟩, ⟨"2025-06", "EUR", 3⟩]⟩,
   ⟨true, true, [⟨"2025-06", "USD", 5⟩]⟩⟩

/-- The bundle load_data builds from srcs8. -/
def bundle8 : DataBundle :=
  ⟨[⟨"2025-06", "E", "Revenue", 1, "USD"⟩], [],
   [⟨"2025-06", "EUR", 2⟩, ⟨"2025-06", "EUR", 3⟩],
   [⟨"2025-06", "USD", 5⟩]⟩

/-- Counterexample to C8 as stated: load_data contains no duplicate
validation of any kind; a source with two fx entries for the same
(period, currency) loads successfully into a bundle that keeps both
entries (the error type of the embedding has no duplicate-rate
constructor because no code path raises one). -/
theorem load_data_duplicate_fx_cex :
    (srcs8.fx.rows.map (fun f => (f.period, f.currency))) =
      [("2025-06", "EUR"), ("2025-06", "EUR")] ∧
    load_data srcs8 = .ok bundle8 := by
  constructor
  · rfl
  · rfl

theorem mapE_normFxRow_spec (rows out : List FxRow)
    (h : mapE normFxRow rows = .ok out) :
    List.Forall₂ (fun (raw cooked : FxRow) =>
      cooked.currency = raw.currency ∧ cooked.rate_to_usd = raw.rate_to_usd ∧
      _normalize_period raw.period = .ok cooked.period) rows out := by
  induction rows generalizing out with
  | nil =>
    unfold mapE at h
    cases h
    exact List.Forall₂.nil
  | cons r rs ih =>
    unfold mapE at h
    cases hp : _normalize_period r.period with
    | error e =>
      rw [show normFxRow r = .error e from by unfold normFxRow; rw [hp]; rfl] at h
      exact absurd h (by simp [Bind.bind, Except.bind])
    | ok p =>
      rw [show normFxRow r = .ok { r with period := p } from by
        unfold normFxRow; rw [hp]; rfl] at h
      simp only [Bind.bind, Except.bind] at h
      cases hrest : mapE normFxRow rs with
      | error e =>
        rw [hrest] at h
        exact absurd h (by simp)
      | ok outs =>
        rw [hrest] at h
        simp only [pure, Except.pure, Except.ok.injEq] at h
        subst h
        exact List.Forall₂.cons ⟨rfl, rfl, hp⟩ (ih outs hrest)

theorem load_data_ok_parts {srcs : RawSources} {b : DataBundle}
    (h : load_data srcs = .ok b) :
    loadLedger srcs.actuals "actuals" = .ok b.actuals ∧
    loadLedger srcs.budget "budget" = .ok b.budget ∧
    loadFx srcs.fx = .ok b.fx ∧
    loadCash srcs.cash = .ok b.cash := by
  unfold load_data at h
  cases ha : loadLedger srcs.actuals "actuals" with
  | error e =>
    rw [ha] at h
    exact absurd h (by simp [Bind.bind, Except.bind])
  | ok a =>
    rw [ha] at h
    simp only [Bind.bind, Except.bind] at h
    cases hbgt : loadLedger srcs.budget "budget" with
    | error e =>
      rw [hbgt] at h
      exact absurd h (by simp)
    | ok bgt =>
      rw [hbgt] at h
      simp only [] at h
      cases hf : loadFx srcs.fx with
      | error e =>
        rw [hf] at h
        exact absurd h (by simp)
      | ok f =>
        rw [hf] at h
        simp only [] at h
        cases hc : loadCash srcs.cash with
        | error e =>
          rw [hc] at h
          exact absurd h (by simp)
        | ok c =>
          rw [hc] at h
          simp only [pure, Except.pure, Except.ok.injEq] at h
          subst h
          exact ⟨rfl, rfl, rfl, rfl⟩

theorem loadFx_ok_rows {t : RawFx} {out : List FxRow} (h : loadFx t = .ok out) :
    mapE normFxRow t.rows = .ok out := by
  unfold loadFx at h
  by_cases hr : t.hasRate
  · rw [show (!t.hasRate) = false from by rw [hr]; rfl] at h
    simp only [Bool.false_eq_true, if_false] at h
    by_cases hp : t.hasPeriod
    · rw [show (!t.hasPeriod) = false from by rw [hp]; rfl] at h
      simp only [Bool.false_eq_true, if_false] at h
      simp only [Bind.bind, Except.bind] at h
      cases hm : mapE normFxRow t.rows with
      | error e =>
        rw [hm] at h
        exact absurd h (by simp)
      | ok rows =>
        rw [hm] at h
        by_cases hc : t.hasCurrency
        · rw [show (!t.hasCurrency) = false from by rw [hc]; rfl] at h
          simp only [Bool.false_eq_true, if_false, pure, Except.pure,
            Except.ok.injEq] at h
          rw [h]
        · rw [show (!t.hasCurrency) = true from by rw [eq_false_of_ne_true hc]; rfl] at h
          simp only [if_true] at h
          exact absurd h (by simp)
    · rw [show (!t.hasPeriod) = true from by rw [eq_false_of_ne_true hp]; rfl] at h
      simp only [if_true] at h
      exact absurd h (by simp)
  · rw [show (!t.hasRate) = true from by rw [eq_false_of_ne_true hr]; rfl] at h
    simp only [if_true] at h
    exact absurd h (by simp)

/-- C8 amended: load_data performs no duplicate-fx validation at all:
whenever it returns a bundle, the fx table of the bundle has exactly one
entry per raw fx row, in order, with the currency and rate unchanged and
only the period normalized — duplicate (period, currency) entries are
neither rejected nor collapsed to either one; the downstream converter
then joins records against every one of them. -/
theorem load_data_fx_preserved (srcs : RawSources) (b : DataBundle)
    (h : load_data srcs = .ok b) :
    b.fx.length = srcs.fx.rows.length ∧
    List.Forall₂ (fun (raw cooked : FxRow) =>
      cooked.currency = raw.currency ∧ cooked.rate_to_usd = raw.rate_to_usd ∧
      _normalize_period raw.period = .ok cooked.period) srcs.fx.rows b.fx := by
  have hparts := load_data_ok_parts h
  have hrows := loadFx_ok_rows hparts.2.2.1
  have hfa := mapE_normFxRow_spec _ _ hrows
  exact ⟨hfa.length_eq.symm, hfa⟩

/-- Witness for the amended C8 at the duplicate-entry source: both
entries survive the load. -/
theorem load_data_fx_preserved_witness :
    bundle8.fx.length = srcs8.fx.rows.length ∧ bundle8.fx.length = 2 :=
  ⟨(load_data_fx_preserved srcs8 bundle8 rfl).1, rfl⟩

/-! ## C9: missing-column validation and currency defaulting -/

/-- The first column of period, entity, account, amount absent from a
ledger source, in the order the code asserts them. -/
def firstMissingLedgerCol (t : RawLedger) : Option String :=
  if !t.hasPeriod then some "period"
  else if !t.hasEntity then some "entity"
  else if !t.hasAccount then some "account"
  else if !t.hasAmount then some "amount"
  else none

/-- All columns the loader requires, over all four sources. -/
def requiredColumnsPresent (srcs : RawSources) : Bool :=
  srcs.actuals.hasPeriod && srcs.actuals.hasEntity && srcs.actuals.hasAccount &&
  srcs.actuals.hasAmount && srcs.budget.hasPeriod && srcs.budget.hasEntity &&
  srcs.budget.hasAccount && srcs.budget.hasAmount && srcs.fx.hasRate &&
  srcs.fx.hasPeriod && srcs.fx.hasCurrency && srcs.cash.hasPeriod

theorem checkLedgerCols_eq (t : RawLedger) (kind : String) :
    checkLedgerCols t kind =
      match firstMissingLedgerCol t with
      | some c => .error (.missingColumn kind c)
      | none => .ok () := by
  unfold checkLedgerCols firstMissingLedgerCol
  by_cases h1 : t.hasPeriod <;> by_cases h2 : t.hasEntity <;>
    by_cases h3 : t.hasAccount <;> by_cases h4 : t.hasAmount <;>
    simp [h1, h2, h3, h4]

theorem loadLedger_missing {t : RawLedger} {kind c : String}
    (h : firstMissingLedgerCol t = some c) :
    loadLedger t kind = .error (.missingColumn kind c) := by
  unfold loadLedger
  rw [checkLedgerCols_eq, h]
  rfl

theorem loadLedger_ok_cols {t : RawLedger} {kind : String} {rows : List Row}
    (h : loadLedger t kind = .ok rows) : firstMissingLedgerCol t = none := by
  cases hcol : firstMissingLedgerCol t with
  | none => rfl
  | some c =>
    rw [loadLedger_missing hcol] at h
    exact absurd h (by simp)

theorem loadFx_ok_flags {t : RawFx} {rows : List FxRow} (h : loadFx t = .ok rows) :
    t.hasRate = true ∧ t.hasPeriod = true ∧ t.hasCurrency = true := by
  unfold loadFx at h
  by_cases hr : t.hasRate
  · by_cases hp : t.hasPeriod
    · by_cases hc : t.hasCurrency
      · exact ⟨hr, hp, hc⟩
      · rw [show (!t.hasRate) = false from by rw [hr]; rfl,
          show (!t.hasPeriod) = false from by rw [hp]; rfl] at h
        simp only [Bool.false_eq_true, if_false, Bind.bind, Except.bind] at h
        cases hm : mapE normFxRow t.rows with
        | error e =>
          rw [hm] at h
          exact absurd h (by simp)
        | ok out =>
          rw [hm] at h
          rw [show (!t.hasCurrency) = true from by rw [eq_false_of_ne_true hc]; rfl] at h
          exact absurd h (by simp)
    · rw [show (!t.hasRate) = false from by rw [hr]; rfl,
        show (!t.hasPeriod) = true from by rw [eq_false_of_ne_true hp]; rfl] at h
      exact absurd h (by simp)
  · rw [show (!t.hasRate) = true from by rw [eq_false_of_ne_true hr]; rfl] at h
    exact absurd h (by simp)

theorem loadCash_ok_flags {t : RawCash} {rows : List CashRow}
    (h : loadCash t = .ok rows) : t.hasPeriod = true := by
  by_cases hp : t.hasPeriod
  · exact hp
  · unfold loadCash at h
    rw [show (!t.hasPeriod) = true from by rw [eq_false_of_ne_true hp]; rfl] at h
    exact absurd h (by simp)

theorem mapE_forall₂ {α β : Type} (f : α → Except Err β) (R : α → β → Prop)
    (hf : ∀ a b, f a = .ok b → R a b) :
    ∀ {l : List α} {out : List β}, mapE f l = .ok out → List.Forall₂ R l out := by
  intro l
  induction l with
  | nil =>
    intro out h
    unfold mapE at h
    cases h
    exact List.Forall₂.nil
  | cons x xs ih =>
    intro out h
    unfold mapE at h
    cases hx : f x with
    | error e =>
      rw [hx] at h
      exact absurd h (by simp [Bind.bind, Except.bind])
    | ok y =>
      rw [hx] at h
      simp only [Bind.bind, Except.bind] at h
      cases hrest : mapE f xs with
      | error e =>
        rw [hrest] at h
        exact absurd h (by simp)
      | ok ys =>
        rw [hrest] at h
        simp only [pure, Except.pure, Except.ok.injEq] at h
        subst h
        exact List.Forall₂.cons (hf x y hx) (ih hrest)

theorem forall₂_mem_right {α β : Type} {R : α → β → Prop} :
    ∀ {l : List α} {l' : List β}, List.Forall₂ R l l' → ∀ b ∈ l', ∃ a ∈ l, R a b := by
  intro l l' h
  induction h with
  | nil => intro b hb; exact absurd hb (List.not_mem_nil _)
  | cons hR _ ih =>
    intro b hb
    rcases List.mem_cons.mp hb with hb | hb
    · exact ⟨_, List.mem_cons_self _ _, hb ▸ hR⟩
    · rcases ih b hb with ⟨a, ha, haR⟩
      exact ⟨a, List.mem_cons_of_mem _ ha, haR⟩

theorem loadLedger_currency_default {t : RawLedger} {kind : String} {rows : List Row}
    (h : loadLedger t kind = .ok rows) (hc : t.hasCurrency = false) :
    ∀ r ∈ rows, r.currency = "USD" := by
  unfold loadLedger at h
  cases hchk : checkLedgerCols t kind with
  | error e =>
    rw [hchk] at h
    exact absurd h (by simp [Bind.bind, Except.bind])
  | ok u =>
    rw [hchk] at h
    simp only [Bind.bind, Except.bind, hc, Bool.false_eq_true, if_false] at h
    have hfa := mapE_forall₂ normRow
      (fun (raw cooked : Row) => cooked.currency = raw.currency)
      (fun a b hab => by
        unfold normRow at hab
        cases hp : _normalize_period a.period with
        | error e =>
          rw [hp] at hab
          exact absurd hab (by simp [Bind.bind, Except.bind])
        | ok p =>
          rw [hp] at hab
          simp only [Bind.bind, Except.bind, pure, Except.pure, Except.ok.injEq] at hab
          rw [← hab]) h
    intro r hr
    rcases forall₂_mem_right hfa r hr with ⟨raw, hraw, hcur⟩
    rcases List.mem_map.mp hraw with ⟨r0, _hr0, hr0eq⟩
    rw [hcur, ← hr0eq]

theorem loadCash_currency_default {t : RawCash} {rows : List CashRow}
    (h : loadCash t = .ok rows) (hc : t.hasCurrency = false) :
    ∀ r ∈ rows, r.currency = "USD" := by
  unfold loadCash at h
  by_cases hp : t.hasPeriod
  · rw [show (!t.hasPeriod) = false from by rw [hp]; rfl] at h
    simp only [Bool.false_eq_true, if_false, Bind.bind, Except.bind] at h
    cases hm : mapE normCashRow t.rows with
    | error e =>
      rw [hm] at h
      exact absurd h (by simp)
    | ok out =>
      rw [hm] at h
      simp only [hc, Bool.false_eq_true, if_false, pure, Except.pure,
        Except.ok.injEq] at h
      subst h
      intro r hr
      rcases List.mem_map.mp hr with ⟨r0, _hr0, hr0eq⟩
      rw [← hr0eq]
  · rw [show (!t.hasPeriod) = true from by rw [eq_false_of_ne_true hp]; rfl] at h
    exact absurd h (by simp)

/-- Sources where budget lacks the entity column while actuals carries an
unparsable period value. -/
def srcs9 : RawSources :=
  ⟨⟨true, true, true, true, true, [⟨"garbage", "E", "Revenue", 1, "USD"⟩]⟩,
   ⟨true, false, true, true, true, []⟩,
   ⟨true, true, true, []⟩,
   ⟨true, true, []⟩⟩

/-- Counterexample to C9 as stated: budget lacks entity, yet load_data
does not fail with a MissingColumnError: the checks run in source order
and the period parse failure of actuals preempts the budget column
check. -/
theorem load_data_missing_col_cex :
    srcs9.budget.hasEntity = false ∧
    load_data srcs9 = .error (.periodParse "garbage") ∧
    load_data srcs9 ≠ .error (.missingColumn "budget" "entity") := by
  refine ⟨rfl, rfl, ?_⟩
  intro hcon
  rw [show load_data srcs9 = .error (.periodParse "garbage") from rfl] at hcon
  simp only [Except.error.injEq] at hcon
  exact absurd hcon (by simp)

/-- C9 amended: the checks of load_data run in a fixed order (actuals
columns, actuals periods, budget columns, budget periods, fx rate_to_usd,
fx periods, fx currency, cash periods).  load_data fails with a
MissingColumnError naming the source and the first missing column
whenever the missing-column check is the first check to fail; an earlier
period parse failure preempts a later MissingColumnError.  Whenever any
required column is missing the load fails with some error, so no partial
bundle is ever returned; and when the currency column is absent from
actuals, budget or cash it is defaulted to the reporting currency
instead of failing. -/
theorem load_data_missing_columns (srcs : RawSources) (c : String) (b : DataBundle) :
    (firstMissingLedgerCol srcs.actuals = some c →
      load_data srcs = .error (.missingColumn "actuals" c)) ∧
    (∀ arows, loadLedger srcs.actuals "actuals" = .ok arows →
      firstMissingLedgerCol srcs.budget = some c →
      load_data srcs = .error (.missingColumn "budget" c)) ∧
    (∀ arows brows, loadLedger srcs.actuals "actuals" = .ok arows →
      loadLedger srcs.budget "budget" = .ok brows →
      srcs.fx.hasRate = false →
      load_data srcs = .error (.missingColumn "fx" "rate_to_usd")) ∧
    (∀ arows brows frows, loadLedger srcs.actuals "actuals" = .ok arows →
      loadLedger srcs.budget "budget" = .ok brows →
      srcs.fx.hasRate = true → srcs.fx.hasPeriod = true →
      mapE normFxRow srcs.fx.rows = .ok frows →
      srcs.fx.hasCurrency = false →
      load_data srcs = .error (.missingColumn "fx" "currency")) ∧
    (load_data srcs = .ok b → requiredColumnsPresent srcs = true) ∧
    (load_data srcs = .ok b → srcs.actuals.hasCurrency = false →
      ∀ r ∈ b.actuals, r.currency = "USD") ∧
    (load_data srcs = .ok b → srcs.budget.hasCurrency = false →
      ∀ r ∈ b.budget, r.currency = "USD") ∧
    (load_data srcs = .ok b → srcs.cash.hasCurrency = false →
      ∀ r ∈ b.cash, r.currency = "USD") := by
  refine ⟨?_, ?_, ?_, ?_, ?_, ?_, ?_, ?_⟩
  · intro hcol
    unfold load_data
    rw [loadLedger_missing hcol]
    rfl
  · intro arows ha hcol
    unfold load_data
    rw [ha]
    simp only [Bind.bind, Except.bind]
    rw [loadLedger_missing hcol]
  · intro arows brows ha hb hr
    unfold load_data
    rw [ha]
    simp only [Bind.bind, Except.bind]
    rw [hb]
    unfold loadFx
    rw [show (!srcs.fx.hasRate) = true from by rw [hr]; rfl]
    rfl
  · intro arows brows frows ha hb hr hp hm hc
    unfold load_data
    rw [ha]
    simp only [Bind.bind, Except.bind]
    rw [hb]
    unfold loadFx
    rw [show (!srcs.fx.hasRate) = false from by rw [hr]; rfl,
      show (!srcs.fx.hasPeriod) = false from by rw [hp]; rfl]
    simp only [Bool.false_eq_true, if_false, Bind.bind, Except.bind]
    rw [hm]
    rw [show (!srcs.fx.hasCurrency) = true from by rw [hc]; rfl]
    rfl
  · intro h
    have hparts := load_data_ok_parts h
    have ha := loadLedger_ok_cols hparts.1
    have hb := loadLedger_ok_cols hparts.2.1
    have hf := loadFx_ok_flags hparts.2.2.1
    have hc := loadCash_ok_flags hparts.2.2.2
    unfold firstMissingLedgerCol at ha hb
    unfold requiredColumnsPresent
    by_cases h1 : srcs.actuals.hasPeriod <;> by_cases h2 : srcs.actuals.hasEntity <;>
      by_cases h3 : srcs.actuals.hasAccount <;> by_cases h4 : srcs.actuals.hasAmount <;>
      by_cases h5 : srcs.budget.hasPeriod <;> by_cases h6 : srcs.budget.hasEntity <;>
      by_cases h7 : srcs.budget.hasAccount <;> by_cases h8 : srcs.budget.hasAmount <;>
      simp_all [hf.1, hf.2.1, hf.2.2, hc]
  · intro h hcur
    exact loadLedger_currency_default (load_data_ok_parts h).1 hcur
  · intro h hcur
    exact loadLedger_currency_default (load_data_ok_parts h).2.1 hcur
  · intro h hcur
    exact loadCash_currency_default (load_data_ok_parts h).2.2.2 hcur

/-- Actuals lacking the amount column. -/
def srcs9a : RawSources :=
  ⟨⟨true, true, true, false, true, []⟩,
   ⟨true, true, true, true, true, []⟩,
   ⟨true, true, true, []⟩,
   ⟨true, true, []⟩⟩

/-- Actuals without a currency column: the loader must default it. -/
def srcs9c : RawSources :=
  ⟨⟨true, true, true, true, false, [⟨"2025-06", "E", "Revenue", 1, "EUR"⟩]⟩,
   ⟨true, true, true, true, true, []⟩,
   ⟨true, true, true, []⟩,
   ⟨true, true, []⟩⟩

/-- The bundle loaded from srcs9c: the currency comes out as USD. -/
def bundle9c : DataBundle :=
  ⟨[⟨"2025-06", "E", "Revenue", 1, "USD"⟩], [], [], []⟩

/-- Witness for the amended C9: a missing actuals amount column produces
the named MissingColumnError; a well-formed load has every required
column; a load without an actuals currency column defaults it to USD. -/
theorem load_data_missing_columns_witness :
    load_data srcs9a = .error (.missingColumn "actuals" "amount") ∧
    requiredColumnsPresent srcs8 = true ∧
    bundle9c.actuals.map (fun r => r.currency) = ["USD"] := by
  refine ⟨(load_data_missing_columns srcs9a "amount" bundle8).1 rfl,
    (load_data_missing_columns srcs8 "amount" bundle8).2.2.2.2.1 rfl, ?_⟩
  have hall := (load_data_missing_columns srcs9c "amount" bundle9c).2.2.2.2.2.1 rfl rfl
  have h1 := hall ⟨"2025-06", "E", "Revenue", 1, "USD"⟩ (List.mem_cons_self _ _)
  simp [bundle9c]

end CfoCopilot
